import Mathlib

/-!
Verification of the car-plate registry application (`src/app.py`).

The Python source is shallowly embedded here:
* `clean_plate_text` models `clean_plate_text` (replace "-" by "", replace " "
  by "", then `.upper()`); strings are modelled as their character lists,
  `str.replace(x, "")` as a filter and per-character upper-casing by the
  basic-latin `Char.toUpper` (the only case the application exercises).
* The SQLite table `plates(plate_number TEXT PRIMARY KEY, owner_name, department)`
  is modelled as a list of `PlateRecord` in storage order; the PRIMARY KEY
  violation raised by `INSERT` is modelled by the explicit duplicate test in
  `add_plate`.
* `add_plate`, `delete_plate`, `get_owner` model the functions of the same
  names; `recognize_plate` models the OCR filtering loop; `resolve` models the
  recognition branch's candidate loop; `csv_import` / `import_rows` model the
  CSV bulk-import branch with its required-column check.
-/

/-- `clean_plate_text` of `app.py` on character lists:
`text.replace("-", "").replace(" ", "").upper()`. -/
def cleanChars (cs : List Char) : List Char :=
  ((cs.filter (fun c => c != '-')).filter (fun c => c != ' ')).map Char.toUpper

/-- `clean_plate_text(text)` from `app.py` line 33. -/
def clean_plate_text (s : String) : String :=
  String.mk (cleanChars s.data)

/-- A row of the `plates` table (`init_db`, `app.py` line 20). -/
structure PlateRecord where
  plate_number : String
  owner_name : String
  department : String
deriving DecidableEq

/-- The `plates` table in storage order. -/
abbrev Registry := List PlateRecord

/-- `add_plate(plate, name, dept)` from `app.py` line 37: normalizes the plate,
inserts unless the primary key is already present; returns the new table and
the success flag (`True` on insert, `False` on `sqlite3.IntegrityError`). -/
def add_plate (db : Registry) (plate name dept : String) : Registry × Bool :=
  let plate_clean := clean_plate_text plate
  if db.any (fun r => r.plate_number == plate_clean) then
    (db, false)
  else
    (db ++ [⟨plate_clean, name, dept⟩], true)

/-- `delete_plate(plate)` from `app.py` line 51: deletes rows whose key equals
the raw argument; note the argument is NOT passed through `clean_plate_text`. -/
def delete_plate (db : Registry) (plate : String) : Registry :=
  db.filter (fun r => r.plate_number != plate)

/-- `get_owner(plate_text)` from `app.py` line 58: normalizes the input and
returns `(owner_name, department)` of the matching row, if any. -/
def get_owner (db : Registry) (plate_text : String) : Option (String × String) :=
  let plate_clean := clean_plate_text plate_text
  (db.find? (fun r => r.plate_number == plate_clean)).map
    (fun r => (r.owner_name, r.department))

/-- One OCR detection `(bbox, text, prob)`; the bounding box is unused by the
filtering logic, and the confidence is modelled as a rational. -/
structure RawDetection where
  text : String
  confidence : ℚ
deriving DecidableEq

/-- The length threshold used at `app.py` line 86 (`len(cleaned) >= 3`). -/
def MIN_LEN : Nat := 3

/-- The filtering loop of `recognize_plate` (`app.py` lines 82-89): keep, in
emission order, the cleaned text of every detection with
`len(cleaned) >= 3 and prob > 0.3`. -/
def recognize_plate : List RawDetection → List String
  | [] => []
  | det :: rest =>
    let cleaned := clean_plate_text det.text
    if MIN_LEN ≤ cleaned.length ∧ 3/10 < det.confidence then
      cleaned :: recognize_plate rest
    else
      recognize_plate rest

/-- Outcome of the recognition branch (`app.py` lines 178-191). -/
inductive MatchResult where
  | NoCandidates : MatchResult
  | Unmatched : List String → MatchResult
  | Matched : String → String → String → MatchResult
deriving DecidableEq

/-- The candidate loop of the recognition branch (`app.py` lines 182-189):
first candidate with a `get_owner` hit, short-circuiting on `break`. -/
def resolveFirst (db : Registry) : List String → Option (String × String × String)
  | [] => none
  | t :: rest =>
    match get_owner db t with
    | some (n, d) => some (t, n, d)
    | none => resolveFirst db rest

/-- The recognition branch (`app.py` lines 178-191): empty candidate list is
reported separately; otherwise first hit wins, else all candidates are shown. -/
def resolve (db : Registry) (candidates : List String) : MatchResult :=
  match candidates with
  | [] => MatchResult.NoCandidates
  | _ :: _ =>
    match resolveFirst db candidates with
    | some (t, n, d) => MatchResult.Matched t n d
    | none => MatchResult.Unmatched candidates

/-- The candidates on which the loop of `app.py` lines 182-189 actually calls
`get_owner`, in order: everything up to and including the first hit. -/
def lookupTrace (db : Registry) : List String → List String
  | [] => []
  | t :: rest =>
    if (get_owner db t).isSome then [t]
    else t :: lookupTrace db rest

/-- One CSV body row, fields already coerced to strings
(`str(row['車牌'])` etc., `app.py` line 146). -/
structure ImportRow where
  plate : String
  name : String
  dept : String
deriving DecidableEq

/-- The per-row import loop (`app.py` lines 145-149): every row is attempted,
successes and failures are counted; returns (table, success_count, fail_count). -/
def import_rows (db : Registry) : List ImportRow → Registry × Nat × Nat
  | [] => (db, 0, 0)
  | row :: rest =>
    let res := add_plate db row.plate row.name row.dept
    let rec2 := import_rows res.1 rest
    if res.2 then (rec2.1, rec2.2.1 + 1, rec2.2.2)
    else (rec2.1, rec2.2.1, rec2.2.2 + 1)

/-- Specification-level count of duplicate rows: how many rows of the import
collide with a canonical key already present at the time their insert is
attempted, starting from the given key set (the `M` of §8's reconciliation
property). -/
def dupCount (keys : List String) : List ImportRow → Nat
  | [] => 0
  | row :: rest =>
    let k := clean_plate_text row.plate
    if k ∈ keys then dupCount keys rest + 1
    else dupCount (keys ++ [k]) rest

/-- `required_cols` from `app.py` line 133. -/
def required_cols : List String := ["車牌", "姓名", "部門"]

/-- The CSV import branch (`app.py` lines 133-151): if any required column is
missing from the header the import is rejected and the table untouched;
otherwise the row loop runs. `none` models the rejection. -/
def csv_import (db : Registry) (cols : List String) (rows : List ImportRow) :
    Registry × Option (Nat × Nat) :=
  if required_cols.all (fun c => cols.contains c) then
    let res := import_rows db rows
    (res.1, some (res.2.1, res.2.2))
  else
    (db, none)

/-- The sequence of single inserts an administrator performs
(`add_plate` per submitted form, `app.py` lines 108-114). -/
def insertAll (db : Registry) : List (String × String × String) → Registry
  | [] => db
  | (p, n, d) :: ops => insertAll (add_plate db p n d).1 ops

/-- Modelled from the spec: the Normalizer as §4.1 words it — "strips all
hyphen and whitespace characters" then upper-cases — used only to compare the
spec's wording with `clean_plate_text`. -/
def spec_normalize (s : String) : String :=
  String.mk ((s.data.filter (fun c => !(c == '-' || c.isWhitespace))).map Char.toUpper)

/-! ### Character-level facts about `Char.toUpper` -/

theorem toNat_ofNat_of_valid {n : Nat} (h : n.isValidChar) : (Char.ofNat n).toNat = n := by
  rw [Char.ofNat, dif_pos h]
  simp [Char.ofNatAux, Char.toNat, UInt32.toNat]

theorem toUpper_toNat_of_lower {c : Char} (h1 : 97 ≤ c.toNat) (h2 : c.toNat ≤ 122) :
    (Char.toUpper c).toNat = c.toNat - 32 := by
  unfold Char.toUpper
  rw [if_pos ⟨h1, h2⟩]
  exact toNat_ofNat_of_valid (by unfold Nat.isValidChar; omega)

theorem toUpper_eq_self {c : Char} (h : ¬(97 ≤ c.toNat ∧ c.toNat ≤ 122)) :
    Char.toUpper c = c := by
  unfold Char.toUpper
  rw [if_neg h]

theorem toUpper_idem (c : Char) : c.toUpper.toUpper = c.toUpper := by
  by_cases h : 97 ≤ c.toNat ∧ c.toNat ≤ 122
  · have h3 := toUpper_toNat_of_lower h.1 h.2
    apply toUpper_eq_self
    omega
  · rw [toUpper_eq_self h, toUpper_eq_self h]

theorem toUpper_ne_of_ne {c x : Char} (hx : x.toNat < 65) (h : c ≠ x) :
    c.toUpper ≠ x := by
  by_cases hl : 97 ≤ c.toNat ∧ c.toNat ≤ 122
  · have h3 := toUpper_toNat_of_lower hl.1 hl.2
    intro heq
    have h4 : (Char.toUpper c).toNat = x.toNat := congrArg Char.toNat heq
    omega
  · rw [toUpper_eq_self hl]; exact h

/-! ### Facts about `cleanChars` / `clean_plate_text` -/

theorem cleanChars_eq_single_filter (cs : List Char) :
    cleanChars cs = (cs.filter (fun c => !(c == '-' || c == ' '))).map Char.toUpper := by
  unfold cleanChars
  rw [List.filter_filter]
  congr 1
  apply List.filter_congr
  intro c _
  cases h1 : c == '-' <;> cases h2 : c == ' ' <;> simp [bne, h1, h2]

theorem mem_cleanChars_ne {cs : List Char} {c : Char} (h : c ∈ cleanChars cs) :
    c ≠ '-' ∧ c ≠ ' ' := by
  rw [cleanChars_eq_single_filter] at h
  obtain ⟨b, hb, rfl⟩ := List.mem_map.mp h
  have hb2 := (List.mem_filter.mp hb).2
  have hbh : b ≠ '-' := by
    intro heq; subst heq; simp at hb2
  have hbs : b ≠ ' ' := by
    intro heq; subst heq; simp at hb2
  exact ⟨toUpper_ne_of_ne (by decide) hbh, toUpper_ne_of_ne (by decide) hbs⟩

theorem cleanChars_idem (cs : List Char) : cleanChars (cleanChars cs) = cleanChars cs := by
  have h1 : (cleanChars cs).filter (fun c => c != '-') = cleanChars cs := by
    rw [List.filter_eq_self]
    intro a ha
    simpa using (mem_cleanChars_ne ha).1
  have h2 : (cleanChars cs).filter (fun c => c != ' ') = cleanChars cs := by
    rw [List.filter_eq_self]
    intro a ha
    simpa using (mem_cleanChars_ne ha).2
  have h3 : ∀ c ∈ cleanChars cs, Char.toUpper c = c := by
    intro c hc
    rw [cleanChars_eq_single_filter] at hc
    obtain ⟨b, _, rfl⟩ := List.mem_map.mp hc
    exact toUpper_idem b
  have step : cleanChars (cleanChars cs) =
      (((cleanChars cs).filter (fun c => c != '-')).filter (fun c => c != ' ')).map Char.toUpper :=
    rfl
  rw [step, h1, h2]
  rw [List.map_congr_left h3]
  simp

theorem clean_plate_text_idem (s : String) :
    clean_plate_text (clean_plate_text s) = clean_plate_text s := by
  unfold clean_plate_text
  exact congrArg String.mk (cleanChars_idem s.data)

theorem cleanChars_eq_nil {cs : List Char} (h : ∀ c ∈ cs, c = '-' ∨ c = ' ') :
    cleanChars cs = [] := by
  rw [cleanChars_eq_single_filter]
  have : cs.filter (fun c => !(c == '-' || c == ' ')) = [] := by
    rw [List.filter_eq_nil_iff]
    intro a ha
    rcases h a ha with rfl | rfl <;> simp
  rw [this, List.map_nil]

/-! ### Facts about the registry operations -/

theorem any_key_eq_true_iff {db : Registry} {k : String} :
    db.any (fun r => r.plate_number == k) = true ↔ ∃ r ∈ db, r.plate_number = k := by
  simp [List.any_eq_true]

theorem add_plate_of_dup {db : Registry} {p n d : String}
    (h : db.any (fun r => r.plate_number == clean_plate_text p) = true) :
    add_plate db p n d = (db, false) := by
  simp [add_plate, h]

theorem add_plate_of_new {db : Registry} {p n d : String}
    (h : db.any (fun r => r.plate_number == clean_plate_text p) = false) :
    add_plate db p n d = (db ++ [⟨clean_plate_text p, n, d⟩], true) := by
  simp [add_plate, h]

theorem get_owner_isSome_iff {db : Registry} {v : String} :
    (get_owner db v).isSome = true ↔ ∃ r ∈ db, r.plate_number = clean_plate_text v := by
  simp [get_owner, List.find?_isSome]

theorem get_owner_append_single {db : Registry} {k n d : String} {v : String}
    (hnone : ∀ r ∈ db, r.plate_number ≠ k) (hv : clean_plate_text v = k) :
    get_owner (db ++ [⟨k, n, d⟩]) v = some (n, d) := by
  have h1 : db.find? (fun r => r.plate_number == k) = none := by
    rw [List.find?_eq_none]
    intro r hr
    simpa using hnone r hr
  simp only [get_owner, hv, List.find?_append, h1, Option.none_or]
  simp [List.find?]

theorem mem_add_plate {db : Registry} {p n d : String} {r : PlateRecord}
    (h : r ∈ (add_plate db p n d).1) :
    r ∈ db ∨ r = ⟨clean_plate_text p, n, d⟩ := by
  by_cases hdup : db.any (fun r => r.plate_number == clean_plate_text p) = true
  · rw [add_plate_of_dup hdup] at h
    exact Or.inl h
  · rw [add_plate_of_new (Bool.not_eq_true _ ▸ hdup)] at h
    rcases List.mem_append.mp h with h | h
    · exact Or.inl h
    · exact Or.inr (List.mem_singleton.mp h)

theorem add_plate_pairwise {db : Registry} {p n d : String}
    (h : db.Pairwise (fun a b => a.plate_number ≠ b.plate_number)) :
    (add_plate db p n d).1.Pairwise (fun a b => a.plate_number ≠ b.plate_number) := by
  cases hdup : db.any (fun r => r.plate_number == clean_plate_text p) with
  | true => rw [add_plate_of_dup hdup]; exact h
  | false =>
    rw [add_plate_of_new hdup]
    rw [List.pairwise_append]
    refine ⟨h, List.pairwise_singleton _ _, ?_⟩
    intro a ha b hb
    rw [List.mem_singleton.mp hb]
    have := List.any_eq_false.mp hdup a ha
    simpa using this

theorem mem_insertAll {ops : List (String × String × String)} :
    ∀ {db : Registry} {r : PlateRecord}, r ∈ insertAll db ops →
      r ∈ db ∨ ∃ op ∈ ops, r.plate_number = clean_plate_text op.1 := by
  induction ops with
  | nil => intro db r h; exact Or.inl h
  | cons op rest ih =>
    intro db r h
    obtain ⟨p, n, d⟩ := op
    rcases ih h with h2 | h2
    · rcases mem_add_plate h2 with h3 | h3
      · exact Or.inl h3
      · exact Or.inr ⟨(p, n, d), List.mem_cons_self _ _, by rw [h3]⟩
    · obtain ⟨op2, hop2, hk⟩ := h2
      exact Or.inr ⟨op2, List.mem_cons_of_mem _ hop2, hk⟩

theorem insertAll_pairwise {ops : List (String × String × String)} :
    ∀ {db : Registry}, db.Pairwise (fun a b => a.plate_number ≠ b.plate_number) →
      (insertAll db ops).Pairwise (fun a b => a.plate_number ≠ b.plate_number) := by
  induction ops with
  | nil => intro db h; exact h
  | cons op rest ih =>
    intro db h
    obtain ⟨p, n, d⟩ := op
    exact ih (add_plate_pairwise h)

/-! ### Claim theorems -/

/-- C8: Normalization is idempotent: for every string `x`,
`clean_plate_text (clean_plate_text x) = clean_plate_text x`. -/
theorem normalize_idempotent (x : String) :
    clean_plate_text (clean_plate_text x) = clean_plate_text x :=
  clean_plate_text_idem x

/-- C5 counterexample: `clean_plate_text` does not strip every whitespace
character — on `"a\tb"` it returns `"A\tB"`, which still contains the
whitespace character `'\t'` and differs from the output the claim predicts
(hyphens and all whitespace removed, remainder upper-cased, as in
`spec_normalize`). -/
theorem normalize_whitespace_counterexample :
    clean_plate_text "a\tb" = "A\tB" ∧
    spec_normalize "a\tb" = "AB" ∧
    clean_plate_text "a\tb" ≠ spec_normalize "a\tb" ∧
    '\t' ∈ (clean_plate_text "a\tb").data ∧ '\t'.isWhitespace = true := by
  refine ⟨by decide, by decide, by decide, by decide, by decide⟩

/-- C5 (amended): for every input string, `clean_plate_text` returns the input
with all hyphen-minus and all space characters removed (no other character,
in particular no other whitespace character, is removed) and the remaining
characters upper-cased; the output never contains a hyphen-minus or a space,
and empty input yields empty output. -/
theorem normalize_characterization (s : String) :
    clean_plate_text s =
      String.mk ((s.data.filter (fun c => !(c == '-' || c == ' '))).map Char.toUpper) ∧
    (∀ c ∈ (clean_plate_text s).data, c ≠ '-' ∧ c ≠ ' ') ∧
    clean_plate_text "" = "" := by
  refine ⟨congrArg String.mk (cleanChars_eq_single_filter s.data), ?_, by decide⟩
  intro c hc
  exact mem_cleanChars_ne hc

/-- C1: after any sequence of inserts starting from the empty table, no two
records share a canonical `plate_number`, every stored key is
`clean_plate_text` of a plate supplied at creation time, and an insert whose
canonical key is already present fails and leaves the table unchanged. -/
theorem registry_uniqueness_invariant (ops : List (String × String × String)) (p n d : String)
    (hdup : ∃ r ∈ insertAll [] ops, r.plate_number = clean_plate_text p) :
    (insertAll [] ops).Pairwise (fun a b => a.plate_number ≠ b.plate_number) ∧
    (∀ r ∈ insertAll [] ops, ∃ op ∈ ops, r.plate_number = clean_plate_text op.1) ∧
    add_plate (insertAll [] ops) p n d = (insertAll [] ops, false) := by
  refine ⟨insertAll_pairwise List.Pairwise.nil, ?_, ?_⟩
  · intro r hr
    rcases mem_insertAll hr with h | h
    · cases h
    · exact h
  · exact add_plate_of_dup (any_key_eq_true_iff.mpr hdup)

/-- Witness for C1 at a concrete insert sequence: after inserting
`"abc-1234"`, inserting the variant `"ABC 1234"` (same canonical key) fails
and leaves the table unchanged. -/
theorem registry_uniqueness_invariant_witness :
    (insertAll [] [("abc-1234", "n1", "d1")]).Pairwise
      (fun a b => a.plate_number ≠ b.plate_number) ∧
    (∀ r ∈ insertAll [] [("abc-1234", "n1", "d1")],
      ∃ op ∈ [("abc-1234", "n1", "d1")], r.plate_number = clean_plate_text op.1) ∧
    add_plate (insertAll [] [("abc-1234", "n1", "d1")]) "ABC 1234" "n2" "d2" =
      (insertAll [] [("abc-1234", "n1", "d1")], false) :=
  registry_uniqueness_invariant [("abc-1234", "n1", "d1")] "ABC 1234" "n2" "d2"
    ⟨⟨"ABC1234", "n1", "d1"⟩, by decide, by decide⟩

/-- C4: if `add_plate db p n d` succeeds then `get_owner` applied to any
casing/separator variant `v` of `p` (any `v` with the same canonical form)
returns `(n, d)`; and in any table a lookup hits exactly when some record's
key equals the canonical form of the query — exact canonical-key equality,
no partial matching. -/
theorem insert_lookup_round_trip (db : Registry) (p n d v : String)
    (hs : (add_plate db p n d).2 = true)
    (hv : clean_plate_text v = clean_plate_text p) :
    get_owner (add_plate db p n d).1 v = some (n, d) ∧
    ∀ (db0 : Registry) (w : String),
      (get_owner db0 w).isSome = true ↔ ∃ r ∈ db0, r.plate_number = clean_plate_text w := by
  constructor
  · have hfalse : db.any (fun r => r.plate_number == clean_plate_text p) = false := by
      cases hany : db.any (fun r => r.plate_number == clean_plate_text p) with
      | false => rfl
      | true => rw [add_plate_of_dup hany] at hs; cases hs
    rw [add_plate_of_new hfalse]
    apply get_owner_append_single _ hv
    intro r hr
    simpa using List.any_eq_false.mp hfalse r hr
  · intro db0 w
    exact get_owner_isSome_iff

/-- Witness for C4: insert `"ABC-1234"`, then look up the variant
`"abc 1234"`. -/
theorem insert_lookup_round_trip_witness :
    get_owner (add_plate [] "ABC-1234" "Alice" "Eng").1 "abc 1234" = some ("Alice", "Eng") ∧
    ∀ (db0 : Registry) (w : String),
      (get_owner db0 w).isSome = true ↔ ∃ r ∈ db0, r.plate_number = clean_plate_text w :=
  insert_lookup_round_trip [] "ABC-1234" "Alice" "Eng" "abc 1234" (by decide) (by decide)

/-- C9: `delete_plate` does not normalize its argument. If every stored key is
canonical (as the write paths guarantee), deleting via a non-canonical variant
`v` of a stored key `k` changes nothing — the record stays, a lookup of `k`
still succeeds — while deleting by the exact canonical key does remove the
record. -/
theorem delete_requires_canonical_key (db : Registry) (v k : String)
    (hcanon : ∀ r ∈ db, clean_plate_text r.plate_number = r.plate_number)
    (hk : clean_plate_text v = k) (hne : v ≠ k)
    (hmem : ∃ r ∈ db, r.plate_number = k) :
    delete_plate db v = db ∧
    (get_owner (delete_plate db v) k).isSome = true ∧
    ∀ r ∈ db, r.plate_number = k → r ∉ delete_plate db k := by
  have hveq : delete_plate db v = db := by
    unfold delete_plate
    rw [List.filter_eq_self]
    intro r hr
    simp only [bne_iff_ne, ne_eq]
    intro heq
    have h1 := hcanon r hr
    rw [heq, hk] at h1
    exact hne h1.symm
  refine ⟨hveq, ?_, ?_⟩
  · rw [hveq, get_owner_isSome_iff]
    have hkk : clean_plate_text k = k := by rw [← hk, clean_plate_text_idem]
    obtain ⟨r, hr, hrk⟩ := hmem
    exact ⟨r, hr, by rw [hrk, hkk]⟩
  · intro r hr hrk hmem2
    have h2 := (List.mem_filter.mp hmem2).2
    simp [hrk] at h2

/-- Witness for C9: with `"ABC1234"` stored, `delete_plate` on the variant
`"abc-1234"` removes nothing, while `delete_plate` on `"ABC1234"` does. -/
theorem delete_requires_canonical_key_witness :
    delete_plate [⟨"ABC1234", "Alice", "Eng"⟩] "abc-1234" = [⟨"ABC1234", "Alice", "Eng"⟩] ∧
    (get_owner (delete_plate [⟨"ABC1234", "Alice", "Eng"⟩] "abc-1234") "ABC1234").isSome = true ∧
    ∀ r ∈ ([⟨"ABC1234", "Alice", "Eng"⟩] : Registry), r.plate_number = "ABC1234" →
      r ∉ delete_plate [⟨"ABC1234", "Alice", "Eng"⟩] "ABC1234" :=
  delete_requires_canonical_key [⟨"ABC1234", "Alice", "Eng"⟩] "abc-1234" "ABC1234"
    (by decide) (by decide) (by decide) ⟨⟨"ABC1234", "Alice", "Eng"⟩, by decide, by decide⟩

/-! ### Facts about the resolver loop -/

theorem resolveFirst_append_none {db : Registry} {pre : List String}
    (h : ∀ x ∈ pre, get_owner db x = none) (rest : List String) :
    resolveFirst db (pre ++ rest) = resolveFirst db rest := by
  induction pre with
  | nil => rfl
  | cons a as ih =>
    have ha := h a (List.mem_cons_self a as)
    show resolveFirst db (a :: (as ++ rest)) = resolveFirst db rest
    simp only [resolveFirst, ha]
    exact ih (fun x hx => h x (List.mem_cons_of_mem _ hx)) 

theorem resolveFirst_cons_some {db : Registry} {t n d : String} {rest : List String}
    (h : get_owner db t = some (n, d)) :
    resolveFirst db (t :: rest) = some (t, n, d) := by
  simp only [resolveFirst, h]

theorem lookupTrace_append_none {db : Registry} {pre : List String}
    (h : ∀ x ∈ pre, get_owner db x = none) {c : String} (rest : List String)
    (hc : (get_owner db c).isSome = true) :
    lookupTrace db (pre ++ c :: rest) = pre ++ [c] := by
  induction pre with
  | nil => simp [lookupTrace, hc]
  | cons a as ih =>
    have ha := h a (List.mem_cons_self a as)
    show lookupTrace db (a :: (as ++ c :: rest)) = a :: (as ++ [c])
    simp only [lookupTrace, ha, Option.isSome_none, Bool.false_eq_true, if_false]
    rw [ih (fun x hx => h x (List.mem_cons_of_mem _ hx))]

theorem lookupTrace_length_le (db : Registry) (cs : List String) :
    (lookupTrace db cs).length ≤ cs.length := by
  induction cs with
  | nil => exact Nat.le_refl 0
  | cons a as ih =>
    show (lookupTrace db (a :: as)).length ≤ as.length + 1
    simp only [lookupTrace]
    cases hsome : (get_owner db a).isSome with
    | true => simp
    | false =>
      simp only [Bool.false_eq_true, if_false, List.length_cons]
      omega

/-- C2: the Resolver reports the first candidate (in filter order) that has a
registry hit; `get_owner` is called exactly on the candidates up to and
including that first hit (never on later ones), and on any candidate list the
number of lookups is at most its length. In particular, when a registered
candidate precedes another registered candidate, the earlier one is reported. -/
theorem resolver_first_match_wins (db : Registry) (pre post : List String) (c n d : String)
    (hpre : ∀ x ∈ pre, get_owner db x = none)
    (hc : get_owner db c = some (n, d)) :
    resolve db (pre ++ c :: post) = MatchResult.Matched c n d ∧
    lookupTrace db (pre ++ c :: post) = pre ++ [c] ∧
    ∀ cs : List String, (lookupTrace db cs).length ≤ cs.length := by
  have hres : resolveFirst db (pre ++ c :: post) = some (c, n, d) := by
    rw [resolveFirst_append_none hpre]
    exact resolveFirst_cons_some hc
  refine ⟨?_, lookupTrace_append_none hpre post (by rw [hc]; rfl), lookupTrace_length_le db⟩
  cases hsplit : pre ++ c :: post with
  | nil => cases pre <;> simp at hsplit
  | cons y ys =>
    rw [hsplit] at hres
    simp [resolve, hres]

/-- Witness for C2: both `"XYZ999"` and `"ABC1234"` are registered; with
candidates `["XYZ999", "ABC1234"]` the resolver reports `"XYZ999"` and looks
up only `"XYZ999"`. -/
theorem resolver_first_match_wins_witness :
    resolve [⟨"ABC1234", "Wang", "Eng"⟩, ⟨"XYZ999", "Li", "Ops"⟩] ["XYZ999", "ABC1234"] =
      MatchResult.Matched "XYZ999" "Li" "Ops" ∧
    lookupTrace [⟨"ABC1234", "Wang", "Eng"⟩, ⟨"XYZ999", "Li", "Ops"⟩] ["XYZ999", "ABC1234"] =
      ["XYZ999"] ∧
    ∀ cs : List String,
      (lookupTrace [⟨"ABC1234", "Wang", "Eng"⟩, ⟨"XYZ999", "Li", "Ops"⟩] cs).length ≤ cs.length :=
  resolver_first_match_wins [⟨"ABC1234", "Wang", "Eng"⟩, ⟨"XYZ999", "Li", "Ops"⟩]
    [] ["ABC1234"] "XYZ999" "Li" "Ops"
    (fun x hx => absurd hx (List.not_mem_nil x)) (by decide)

/-! ### Facts about the bulk import loop -/

theorem any_key_eq_mem_map {db : Registry} {k : String} :
    db.any (fun r => r.plate_number == k) = true ↔ k ∈ db.map (fun r => r.plate_number) := by
  rw [any_key_eq_true_iff, List.mem_map]

theorem import_rows_spec (rows : List ImportRow) : ∀ db : Registry,
    (import_rows db rows).2.1 + (import_rows db rows).2.2 = rows.length ∧
    (import_rows db rows).2.2 = dupCount (db.map (fun r => r.plate_number)) rows ∧
    (import_rows db rows).1.length = db.length + (import_rows db rows).2.1 := by
  induction rows with
  | nil => intro db; simp [import_rows, dupCount]
  | cons row rest ih =>
    intro db
    by_cases hdup : clean_plate_text row.plate ∈ db.map (fun r => r.plate_number)
    · have hany : db.any (fun r => r.plate_number == clean_plate_text row.plate) = true :=
        any_key_eq_mem_map.mpr hdup
      have hstep : import_rows db (row :: rest) =
          ((import_rows db rest).1, (import_rows db rest).2.1, (import_rows db rest).2.2 + 1) := by
        simp [import_rows, add_plate_of_dup hany]
      have hdc : dupCount (db.map (fun r => r.plate_number)) (row :: rest) =
          dupCount (db.map (fun r => r.plate_number)) rest + 1 := by
        simp only [dupCount, if_pos hdup]
      obtain ⟨ih1, ih2, ih3⟩ := ih db
      rw [hstep, hdc]
      dsimp only
      exact ⟨by simp only [List.length_cons]; omega, by rw [ih2], ih3⟩
    · have hany : db.any (fun r => r.plate_number == clean_plate_text row.plate) = false := by
        cases h2 : db.any (fun r => r.plate_number == clean_plate_text row.plate) with
        | false => rfl
        | true => exact absurd (any_key_eq_mem_map.mp h2) hdup
      have hstep : import_rows db (row :: rest) =
          ((import_rows (db ++ [⟨clean_plate_text row.plate, row.name, row.dept⟩]) rest).1,
           (import_rows (db ++ [⟨clean_plate_text row.plate, row.name, row.dept⟩]) rest).2.1 + 1,
           (import_rows (db ++ [⟨clean_plate_text row.plate, row.name, row.dept⟩]) rest).2.2) := by
        simp [import_rows, add_plate_of_new hany]
      have hdc : dupCount (db.map (fun r => r.plate_number)) (row :: rest) =
          dupCount (db.map (fun r => r.plate_number) ++ [clean_plate_text row.plate]) rest := by
        simp only [dupCount, if_neg hdup]
      obtain ⟨ih1, ih2, ih3⟩ :=
        ih (db ++ [⟨clean_plate_text row.plate, row.name, row.dept⟩])
      rw [hstep, hdc]
      dsimp only
      refine ⟨by simp only [List.length_cons]; omega, ?_, ?_⟩
      · rw [ih2]; congr 1; simp
      · rw [ih3]; simp only [List.length_append, List.length_cons, List.length_nil]; omega

/-- C3: bulk import attempts every row (success and failure counts sum to the
number of rows), the failure count equals the number of rows whose canonical
key was already present when their insert was attempted, the success count is
the complement, and the table grows by exactly the success count. -/
theorem bulk_import_reconciliation (db : Registry) (rows : List ImportRow) :
    (import_rows db rows).2.1 + (import_rows db rows).2.2 = rows.length ∧
    (import_rows db rows).2.2 = dupCount (db.map (fun r => r.plate_number)) rows ∧
    (import_rows db rows).2.1 =
      rows.length - dupCount (db.map (fun r => r.plate_number)) rows ∧
    (import_rows db rows).1.length = db.length + (import_rows db rows).2.1 := by
  obtain ⟨h1, h2, h3⟩ := import_rows_spec rows db
  exact ⟨h1, h2, by omega, h3⟩

/-- C7: if the CSV header misses any of the three required columns, the
whole import is rejected with the table unchanged and no row processed;
whenever all
three are present, the row loop runs. -/
theorem import_schema_check (db : Registry) (cols : List String) (rows : List ImportRow)
    (hmissing : required_cols.all (fun c => cols.contains c) = false) :
    csv_import db cols rows = (db, none) ∧
    ∀ cols2 : List String, required_cols.all (fun c => cols2.contains c) = true →
      csv_import db cols2 rows =
        ((import_rows db rows).1,
         some ((import_rows db rows).2.1, (import_rows db rows).2.2)) := by
  constructor
  · have hc : ¬ (required_cols.all (fun c => cols.contains c) = true) := by
      rw [hmissing]; exact Bool.false_ne_true
    simp only [csv_import, if_neg hc]
  · intro cols2 h2
    simp only [csv_import, if_pos h2]

/-- Witness for C7: a header missing the department column rejects the import
of one row and leaves the table unchanged. -/
theorem import_schema_check_witness :
    csv_import [] ["車牌", "姓名"] [⟨"ABC1234", "a", "b"⟩] = ([], none) ∧
    ∀ cols2 : List String, required_cols.all (fun c => cols2.contains c) = true →
      csv_import [] cols2 [⟨"ABC1234", "a", "b"⟩] =
        ((import_rows [] [⟨"ABC1234", "a", "b"⟩]).1,
         some ((import_rows [] [⟨"ABC1234", "a", "b"⟩]).2.1,
               (import_rows [] [⟨"ABC1234", "a", "b"⟩]).2.2)) :=
  import_schema_check [] ["車牌", "姓名"] [⟨"ABC1234", "a", "b"⟩] (by decide)

/-- C6: the Candidate Filter admits a detection's normalized text exactly when
the confidence is strictly above 3/10 and the normalized length is at least
`MIN_LEN` (which is 3, one of the two values the spec allows); admitted
candidates are the normalized texts in original emission order, with no
deduplication and no re-sorting. -/
theorem candidate_filter_characterization (ds : List RawDetection) :
    recognize_plate ds =
      (ds.filter (fun det =>
        decide (MIN_LEN ≤ (clean_plate_text det.text).length ∧ 3/10 < det.confidence))).map
        (fun det => clean_plate_text det.text) ∧
    (MIN_LEN = 3 ∨ MIN_LEN = 4) := by
  refine ⟨?_, Or.inl rfl⟩
  induction ds with
  | nil => rfl
  | cons det rest ih =>
    by_cases h : MIN_LEN ≤ (clean_plate_text det.text).length ∧ 3/10 < det.confidence
    · simp [recognize_plate, List.filter_cons, h, ih]
    · simp [recognize_plate, List.filter_cons, h, ih]

/-- C10 counterexample: the plate `"\t"` consists only of whitespace, yet with
no empty-key record present `add_plate` succeeds and stores the key `"\t"`,
not the empty string the claim predicts. -/
theorem insert_blank_counterexample :
    (∀ c ∈ "\t".data, c = '-' ∨ c.isWhitespace = true) ∧
    add_plate [] "\t" "n" "d" = ([⟨"\t", "n", "d"⟩], true) ∧
    (∀ r ∈ (add_plate [] "\t" "n" "d").1, r.plate_number ≠ "") := by
  refine ⟨by decide, by decide, by decide⟩

/-- C10 (amended): for every plate argument consisting only of hyphen-minus
and space characters (including the empty string), if no record with empty
canonical key exists, `add_plate` succeeds and creates a record whose
`plate_number` is the empty string, and in bulk import such a row counts
toward the success count. -/
theorem insert_blank_amended (db : Registry) (p n d : String)
    (hp : ∀ c ∈ p.data, c = '-' ∨ c = ' ')
    (habs : ∀ r ∈ db, r.plate_number ≠ "") :
    add_plate db p n d = (db ++ [⟨"", n, d⟩], true) ∧
    import_rows db [⟨p, n, d⟩] = (db ++ [⟨"", n, d⟩], 1, 0) := by
  have hclean : clean_plate_text p = "" := congrArg String.mk (cleanChars_eq_nil hp)
  have hany : db.any (fun r => r.plate_number == clean_plate_text p) = false := by
    rw [hclean, List.any_eq_false]
    intro r hr
    simpa using habs r hr
  have h1 : add_plate db p n d = (db ++ [⟨"", n, d⟩], true) := by
    rw [add_plate_of_new hany, hclean]
  refine ⟨h1, ?_⟩
  simp [import_rows, h1]

/-- Witness for C10 (amended): inserting the all-separator plate `"- -"` into
the empty table stores the empty canonical key and counts as one import
success. -/
theorem insert_blank_amended_witness :
    add_plate [] "- -" "Bob" "HR" = ([] ++ [⟨"", "Bob", "HR"⟩], true) ∧
    import_rows [] [⟨"- -", "Bob", "HR"⟩] = ([] ++ [⟨"", "Bob", "HR"⟩], 1, 0) :=
  insert_blank_amended [] "- -" "Bob" "HR" (by decide) (by decide)
